import Mathlib

/-!
Verification of the tmux-pilot monitoring core (`src/mcp/monitor.py`).

The Python module is pure: it scans captured pane text for permission
prompts and lifecycle events, classifies prompt risk against fixed
regular-expression tables, infers a pane status, and formats reports.

Strings are modelled as `List Char`; tool identifiers, risk tiers,
dispositions and event kinds (Python `str` values compared for equality
only) are modelled as Lean `String`.  Python's `re` patterns are
translated into a small backtracking matcher (`RE` / `reRun`) whose
result list is ordered by Python's backtracking priority (alternation
left-first, greedy quantifiers longest-first), so that the head of the
list at the leftmost matching position is exactly the match Python's
`re.search` returns.  All quantifiers in the module's patterns range
over single-character classes, which keeps the matcher structurally
recursive.  Character classes `\s`, `\d`, `\w` are modelled at their
ASCII meaning.
-/

namespace TmuxPilot

/-- Python `str.isspace`-style whitespace as used by `str.strip()` and `\s` (ASCII range). -/
def pyIsSpace (c : Char) : Bool :=
  c == ' ' || c == '\t' || c == '\n' || c == '\r' || c == '\x0b' || c == '\x0c'

/-- Python `\d` (ASCII). -/
def pyIsDigit (c : Char) : Bool :=
  '0' ≤ c && c ≤ '9'

/-- Python `\w` word character (ASCII): letters, digits, underscore. -/
def pyIsWord (c : Char) : Bool :=
  ('a' ≤ c && c ≤ 'z') || ('A' ≤ c && c ≤ 'Z') || pyIsDigit c || c == '_'

/-- Python `str.strip()`: drop whitespace from both ends. -/
def pyStrip (s : List Char) : List Char :=
  ((s.dropWhile pyIsSpace).reverse.dropWhile pyIsSpace).reverse

/-- Regular expressions as they occur in `monitor.py`.  Stars and pluses
only ever quantify single-character classes there, so they take a
character predicate directly. -/
inductive RE : Type
  /-- empty pattern -/
  | eps : RE
  /-- literal character sequence -/
  | lit (cs : List Char) : RE
  /-- literal character sequence, case-insensitive (`re.IGNORECASE`) -/
  | litCI (cs : List Char) : RE
  /-- single character from a class -/
  | one (p : Char → Bool) : RE
  /-- greedy `*` over a character class -/
  | star (p : Char → Bool) : RE
  /-- greedy `+` over a character class -/
  | plus (p : Char → Bool) : RE
  /-- greedy `?` -/
  | opt (r : RE) : RE
  /-- alternation, left alternative preferred -/
  | alt (r₁ r₂ : RE) : RE
  /-- concatenation -/
  | seq (r₁ r₂ : RE) : RE
  /-- word boundary `\b` -/
  | wb : RE
  /-- `$` without `re.MULTILINE`: end of string, or just before a final newline -/
  | eos : RE

/-- States after a greedy class star: consumes a maximal run of `p`-characters
and backtracks one character at a time (longest first).  Each state is the
character just before the remaining suffix (for `\b`) plus that suffix. -/
def starRun (p : Char → Bool) : Option Char → List Char → List (Option Char × List Char)
  | prev, [] => [(prev, [])]
  | prev, c :: t =>
    if p c then starRun p (some c) t ++ [(prev, c :: t)]
    else [(prev, c :: t)]

/-- Match a literal character sequence. -/
def litRun (cs : List Char) : Option Char → List Char → List (Option Char × List Char)
  | prev, s =>
    match cs, s with
    | [], _ => [(prev, s)]
    | _ :: _, [] => []
    | c :: cs, d :: t => if d == c then litRun cs (some d) t else []

/-- Match a literal character sequence case-insensitively. -/
def litCIRun (cs : List Char) : Option Char → List Char → List (Option Char × List Char)
  | prev, s =>
    match cs, s with
    | [], _ => [(prev, s)]
    | _ :: _, [] => []
    | c :: cs, d :: t => if d.toLower == c.toLower then litCIRun cs (some d) t else []

/-- Is the position between `prev` and the head of `s` a `\b` word boundary? -/
def atWordBoundary (prev : Option Char) (s : List Char) : Bool :=
  let left := match prev with | none => false | some c => pyIsWord c
  let right := match s with | [] => false | c :: _ => pyIsWord c
  left != right

/-- All ways the pattern can match a prefix of `s`, in Python backtracking
priority order; each result is the last consumed character (context for a
subsequent `\b`) and the remaining suffix. -/
def reRun : RE → Option Char → List Char → List (Option Char × List Char)
  | .eps, prev, s => [(prev, s)]
  | .lit cs, prev, s => litRun cs prev s
  | .litCI cs, prev, s => litCIRun cs prev s
  | .one p, prev, s =>
    match s with
    | c :: t => if p c then [(some c, t)] else []
    | [] => (fun _ => []) prev
  | .star p, prev, s => starRun p prev s
  | .plus p, prev, s =>
    match s with
    | c :: t => if p c then starRun p (some c) t else []
    | [] => (fun _ => []) prev
  | .opt r, prev, s => reRun r prev s ++ [(prev, s)]
  | .alt r₁ r₂, prev, s => reRun r₁ prev s ++ reRun r₂ prev s
  | .seq r₁ r₂, prev, s => (reRun r₁ prev s).flatMap fun pr => reRun r₂ pr.1 pr.2
  | .wb, prev, s => if atWordBoundary prev s then [(prev, s)] else []
  | .eos, prev, s => if s = [] ∨ s = ['\n'] then [(prev, s)] else []

/-- A compiled pattern: `anchored` records a leading `^` (which, without
`re.MULTILINE`, restricts `re.search` to position 0). -/
structure CompiledRE : Type where
  anchored : Bool
  re : RE

/-- `re.search` scan: try every start position left to right; at the first
position where the pattern matches, return that whole suffix together with
the highest-priority remainder. -/
def reFind (r : RE) : Option Char → List Char → Option (List Char × List Char)
  | prev, s =>
    match (reRun r prev s).head? with
    | some pr => some (s, pr.2)
    | none =>
      match s with
      | [] => none
      | c :: t => reFind r (some c) t

/-- `m.group(0)` of `pattern.search(text)`: `none` when there is no match. -/
def reSearchG0 (p : CompiledRE) (s : List Char) : Option (List Char) :=
  if p.anchored then
    ((reRun p.re none s).head?).map fun pr => s.take (s.length - pr.2.length)
  else
    (reFind p.re none s).map fun fr => fr.1.take (fr.1.length - fr.2.length)

/-- Boolean `re.search`. -/
def reSearchB (p : CompiledRE) (s : List Char) : Bool :=
  (reSearchG0 p s).isSome

/-- Alternation of a list of branches, left to right (empty list never matches). -/
def reAlts : List RE → RE
  | [] => .one fun _ => false
  | [r] => r
  | r :: rs => .alt r (reAlts rs)

/-- `(w₁|w₂|...)` over literal words. -/
def oneOf (ws : List String) : RE :=
  reAlts (ws.map fun w => .lit w.data)

/-- Concatenation of a list of patterns. -/
def reSeq : List RE → RE
  | [] => .eps
  | [r] => r
  | r :: rs => .seq r (reSeq rs)

/-- `.` (any character but newline). -/
def reDot : Char → Bool := fun c => c != '\n'

-- -----------------------------------------------------------
-- Pattern library (`monitor.py` lines 100-161, 190-196)
-- -----------------------------------------------------------

/-- `_SAFE_TOOLS` (a frozenset; only membership is used). -/
def SAFE_TOOLS : List String := ["Read", "Glob", "Grep", "WebSearch", "WebFetch"]

/-- `_LOW_RISK_TOOLS`. -/
def LOW_RISK_TOOLS : List String := ["Edit", "Write", "NotebookEdit"]

/-- `_SAFE_BASH_PATTERNS`. -/
def SAFE_BASH_PATTERNS : List CompiledRE := [
  -- r"^git\s+(status|diff|log|branch|show)"
  ⟨true, reSeq [.lit "git".data, .plus pyIsSpace, oneOf ["status", "diff", "log", "branch", "show"]]⟩,
  -- r"^git\s+(fetch|rev-parse|rev-list|remote)"
  ⟨true, reSeq [.lit "git".data, .plus pyIsSpace, oneOf ["fetch", "rev-parse", "rev-list", "remote"]]⟩,
  -- r"^(cat|head|tail|less|wc|file|ls)\b"
  ⟨true, reSeq [oneOf ["cat", "head", "tail", "less", "wc", "file", "ls"], .wb]⟩,
  -- r"^(find|fd)\b"
  ⟨true, reSeq [oneOf ["find", "fd"], .wb]⟩,
  -- r"^(grep|rg|ag|ack)\b"
  ⟨true, reSeq [oneOf ["grep", "rg", "ag", "ack"], .wb]⟩,
  -- r"^(bazel|bazelw|\.\/bazelw)\s+(build|test|query|info)"
  ⟨true, reSeq [oneOf ["bazel", "bazelw", "./bazelw"], .plus pyIsSpace,
    oneOf ["build", "test", "query", "info"]]⟩,
  -- r"^(gradle|gradlew|\.\/gradlew)\s+(build|test|check)\b"
  ⟨true, reSeq [oneOf ["gradle", "gradlew", "./gradlew"], .plus pyIsSpace,
    oneOf ["build", "test", "check"], .wb]⟩,
  -- r"^(buildifier|ktfmt)\b"
  ⟨true, reSeq [oneOf ["buildifier", "ktfmt"], .wb]⟩,
  -- r"^(python3?|node)\s+.+\.(py|js|ts|bzl)$"
  ⟨true, reSeq [.alt (.seq (.lit "python".data) (.opt (.lit "3".data))) (.lit "node".data),
    .plus pyIsSpace, .plus reDot, .lit ".".data, oneOf ["py", "js", "ts", "bzl"], .eos]⟩,
  -- r"^(npm|yarn|pnpm)\s+(run\s+)?(build|test|lint)\b"
  ⟨true, reSeq [oneOf ["npm", "yarn", "pnpm"], .plus pyIsSpace,
    .opt (.seq (.lit "run".data) (.plus pyIsSpace)), oneOf ["build", "test", "lint"], .wb]⟩,
  -- r"^(cargo|go|make)\s+(build|test|check)\b"
  ⟨true, reSeq [oneOf ["cargo", "go", "make"], .plus pyIsSpace,
    oneOf ["build", "test", "check"], .wb]⟩,
  -- r"^gh\s+(issue|pr)\s+(view|list|diff)\b"
  ⟨true, reSeq [.lit "gh".data, .plus pyIsSpace, oneOf ["issue", "pr"], .plus pyIsSpace,
    oneOf ["view", "list", "diff"], .wb]⟩,
  -- r"^(pwd|whoami|date|uname|which|type|printenv|env)\b"
  ⟨true, reSeq [oneOf ["pwd", "whoami", "date", "uname", "which", "type", "printenv", "env"], .wb]⟩]

/-- `_LOW_RISK_BASH_PATTERNS`. -/
def LOW_RISK_BASH_PATTERNS : List CompiledRE := [
  -- r"^git\s+(add|commit|stash|checkout|switch|branch)\b"
  ⟨true, reSeq [.lit "git".data, .plus pyIsSpace,
    oneOf ["add", "commit", "stash", "checkout", "switch", "branch"], .wb]⟩,
  -- r"^git\s+worktree\s+(add|remove)\b"
  ⟨true, reSeq [.lit "git".data, .plus pyIsSpace, .lit "worktree".data, .plus pyIsSpace,
    oneOf ["add", "remove"], .wb]⟩,
  -- r"^(bazel|bazelw|\.\/bazelw)\s+run\b"
  ⟨true, reSeq [oneOf ["bazel", "bazelw", "./bazelw"], .plus pyIsSpace, .lit "run".data, .wb]⟩,
  -- r"^(gradle|gradlew|\.\/gradlew)\b"
  ⟨true, reSeq [oneOf ["gradle", "gradlew", "./gradlew"], .wb]⟩,
  -- r"^(mkdir|cp|mv|touch|chmod)\b"
  ⟨true, reSeq [oneOf ["mkdir", "cp", "mv", "touch", "chmod"], .wb]⟩,
  -- r"^(npm|yarn|pnpm)\s+install\b"
  ⟨true, reSeq [oneOf ["npm", "yarn", "pnpm"], .plus pyIsSpace, .lit "install".data, .wb]⟩,
  -- r"^(pip|uv)\s+install\b"
  ⟨true, reSeq [oneOf ["pip", "uv"], .plus pyIsSpace, .lit "install".data, .wb]⟩,
  -- r"^(cargo|go)\s+(install|get)\b"
  ⟨true, reSeq [oneOf ["cargo", "go"], .plus pyIsSpace, oneOf ["install", "get"], .wb]⟩]

/-- `_HIGH_RISK_BASH_PATTERNS`. -/
def HIGH_RISK_BASH_PATTERNS : List CompiledRE := [
  -- r"^git\s+push\b"
  ⟨true, reSeq [.lit "git".data, .plus pyIsSpace, .lit "push".data, .wb]⟩,
  -- r"^git\s+(reset|rebase|merge|cherry-pick)\b"
  ⟨true, reSeq [.lit "git".data, .plus pyIsSpace,
    oneOf ["reset", "rebase", "merge", "cherry-pick"], .wb]⟩,
  -- r"git\s+.*--force"   (unanchored)
  ⟨false, reSeq [.lit "git".data, .plus pyIsSpace, .star reDot, .lit "--force".data]⟩,
  -- r"git\s+.*--no-verify"   (unanchored)
  ⟨false, reSeq [.lit "git".data, .plus pyIsSpace, .star reDot, .lit "--no-verify".data]⟩,
  -- r"^gh\s+pr\s+(create|merge|close|edit)\b"
  ⟨true, reSeq [.lit "gh".data, .plus pyIsSpace, .lit "pr".data, .plus pyIsSpace,
    oneOf ["create", "merge", "close", "edit"], .wb]⟩,
  -- r"^gh\s+issue\s+(close|delete|edit)\b"
  ⟨true, reSeq [.lit "gh".data, .plus pyIsSpace, .lit "issue".data, .plus pyIsSpace,
    oneOf ["close", "delete", "edit"], .wb]⟩,
  -- r"^(rm|rmdir|unlink)\b"
  ⟨true, reSeq [oneOf ["rm", "rmdir", "unlink"], .wb]⟩,
  -- r"^(sudo|doas)\b"
  ⟨true, reSeq [oneOf ["sudo", "doas"], .wb]⟩,
  -- r"^(curl|wget)\s+.+(POST|PUT|DELETE|PATCH)"
  ⟨true, reSeq [oneOf ["curl", "wget"], .plus pyIsSpace, .plus reDot,
    oneOf ["POST", "PUT", "DELETE", "PATCH"]]⟩,
  -- r"^docker\s+(rm|rmi|system\s+prune)\b"
  ⟨true, reSeq [.lit "docker".data, .plus pyIsSpace,
    reAlts [.lit "rm".data, .lit "rmi".data,
      .seq (.lit "system".data) (.seq (.plus pyIsSpace) (.lit "prune".data))], .wb]⟩]

/-- `_CHAINING_RE`: `&&|\|\||[;|]|\$\(|` ` (backtick). -/
def CHAINING_RE : CompiledRE :=
  ⟨false, reAlts [.lit "&&".data, .lit "||".data, .one fun c => c == ';' || c == '|',
    .lit "$(".data, .lit "`".data]⟩

-- -----------------------------------------------------------
-- Risk classification (`monitor.py` lines 164-223)
-- -----------------------------------------------------------

/-- `_classify_bash`: classify a Bash command by risk. -/
def classify_bash (command : List Char) : String × String :=
  let cmd := pyStrip command
  -- Check high-risk patterns first
  if HIGH_RISK_BASH_PATTERNS.any (fun pat => reSearchB pat cmd) then ("high", "escalate")
  -- Chaining/substitution → always high risk
  else if reSearchB CHAINING_RE cmd then ("high", "escalate")
  else if SAFE_BASH_PATTERNS.any (fun pat => reSearchB pat cmd) then ("safe", "approve")
  else if LOW_RISK_BASH_PATTERNS.any (fun pat => reSearchB pat cmd) then ("low", "review")
  -- Unknown bash command → high risk
  else ("high", "escalate")

/-- `classify_risk`: classify a prompt by risk level. -/
def classify_risk (tool : String) (action : List Char) : String × String :=
  if SAFE_TOOLS.contains tool then ("safe", "approve")
  else if LOW_RISK_TOOLS.contains tool then ("low", "review")
  else if tool == "Bash" then classify_bash action
  else if tool == "unknown" then ("high", "escalate")
  -- Unknown tool — conservative
  else ("high", "escalate")

-- -----------------------------------------------------------
-- Prompt detection (`monitor.py` lines 18-93)
-- -----------------------------------------------------------

/-- `DetectedPrompt`: a permission prompt found in pane output. -/
structure DetectedPrompt : Type where
  raw : List Char
  tool : String
  action : List Char
  risk : String
  suggestion : String
deriving DecidableEq

/-- `re.finditer` driver: scan every position left to right; a matcher
returns the suffix remaining after the match.  After a match the scan
resumes at its end (all three prompt patterns only produce non-empty
matches; an empty match would advance by one character, and a match at
the very end of the text ends the scan). -/
def finditerAux (f : List Char → Option (α × List Char)) : Nat → List Char → List α
  | 0, _ => []
  | fuel + 1, s =>
    match f s with
    | some (a, rest) =>
      a :: (if s.isEmpty then []
            else finditerAux f fuel (s.drop (max (s.length - rest.length) 1)))
    | none =>
      match s with
      | [] => []
      | _ :: t => finditerAux f fuel t

/-- `re.finditer`, with enough fuel for the whole text. -/
def finditer (f : List Char → Option (α × List Char)) (s : List Char) : List α :=
  finditerAux f (s.length + 1) s

/-- The `\s+(.+)` tail of `_BASH_PROMPT_RE` after the `$` sign: greedy `\s+`
backtracks from the maximal whitespace run until `.` can match (a character
other than a newline); `(.+)` then greedily captures to the end of that
line.  Returns `(group, rest-after-match)`. -/
def bashDollarTail (rest : List Char) : Option (List Char × List Char) :=
  let k := (rest.takeWhile pyIsSpace).length
  if k == 0 then none
  else if !(rest.drop k).isEmpty then
    -- the character after the maximal whitespace run is non-space, hence not '\n'
    let g1 := (rest.drop k).takeWhile fun c => c != '\n'
    some (g1, (rest.drop k).drop g1.length)
  else
    -- whitespace runs to the end: back off to the last non-newline whitespace
    -- character at index ≥ 1; `.` consumes it and everything after is '\n'
    let r1 := rest.drop 1
    match r1.reverse.dropWhile fun c => c == '\n' with
    | c :: _ => some ([c], (r1.reverse.takeWhile fun c => c == '\n').reverse)
    | [] => none

/-- The `\s*\$\s+(.+)` continuation of `_BASH_PROMPT_RE` at a line start:
`\s*` deterministically skips the maximal whitespace run (backtracking
cannot help, a shorter run leaves a whitespace character where `\$` must
match). -/
def bashPromptCont (s : List Char) : Option (List Char × List Char) :=
  match s.dropWhile pyIsSpace with
  | '$' :: rest => bashDollarTail rest
  | _ => none

/-- The lazy `(?:[^\n]*\n)*?` loop of `_BASH_PROMPT_RE`: try the
continuation at the current line start first; otherwise consume one full
line (each loop iteration deterministically eats up to and including the
next newline) and retry.  Fails if no continuation succeeds before the
text runs out of newlines.  Fuel-based so the definition reduces; each
step strictly shortens the text, so `length + 1` fuel never runs out. -/
def bashScanLinesAux : Nat → List Char → Option (List Char × List Char)
  | 0, _ => none
  | fuel + 1, s =>
    match bashPromptCont s with
    | some r => some r
    | none =>
      match s.dropWhile fun c => c != '\n' with
      | '\n' :: t => bashScanLinesAux fuel t
      | _ => none

/-- The lazy line-skipping loop of `_BASH_PROMPT_RE`, with enough fuel. -/
def bashScanLines (s : List Char) : Option (List Char × List Char) :=
  bashScanLinesAux (s.length + 1) s

/-- `_BASH_PROMPT_RE` (`Allow Bash[^\n]*\n(?:[^\n]*\n)*?\s*\$\s+(.+)`)
tried at one position; returns `(group0, group1)` and the rest. -/
def bashMatchAt (s : List Char) : Option ((List Char × List Char) × List Char) :=
  let hdr := "Allow Bash".data
  if hdr.isPrefixOf s then
    -- `[^\n]*` greedily finishes the header line; `\n` must follow
    match (s.drop hdr.length).dropWhile (fun c => c != '\n') with
    | '\n' :: body =>
      match bashScanLines body with
      | some (g1, rest) => some ((s.take (s.length - rest.length), g1), rest)
      | none => none
    | _ => none
  else none

/-- The lazy `(.+?)(?:\?|$)` tail of `_TOOL_PROMPT_RE`: expand one
non-newline character at a time, preferring to stop at a `?` (consumed)
or at `$` (end of string, or just before a final newline). -/
def toolLazyGo (acc : List Char) : List Char → Option (List Char × List Char)
  | [] => some (acc.reverse, [])
  | '?' :: t => some (acc.reverse, t)
  | ['\n'] => some (acc.reverse, ['\n'])
  | c :: t => if c == '\n' then none else toolLazyGo (c :: acc) t

/-- `(.+?)(?:\?|$)`: the first character is consumed unconditionally by `.`. -/
def toolLazyTail : List Char → Option (List Char × List Char)
  | [] => none
  | c :: t => if c == '\n' then none else toolLazyGo [c] t

/-- Greedy `\s+` before `(.+?)`: try the longest whitespace run first,
backing off while the lazy tail fails. -/
def toolWsGo (rest : List Char) : Nat → Option (List Char × List Char)
  | 0 => none
  | j + 1 =>
    match toolLazyTail (rest.drop (j + 1)) with
    | some r => some r
    | none => toolWsGo rest j

/-- The `\s+(.+?)(?:\?|$)` tail of `_TOOL_PROMPT_RE`. -/
def toolTail (rest : List Char) : Option (List Char × List Char) :=
  toolWsGo rest (rest.takeWhile pyIsSpace).length

/-- The eight tool names of `_TOOL_PROMPT_RE`, in alternation order. -/
def TOOL_ALTS : List String :=
  ["Edit", "Write", "Read", "Glob", "Grep", "NotebookEdit", "WebFetch", "WebSearch"]

/-- `_TOOL_PROMPT_RE` (`Allow (Edit|...)(?:\s+to)?\s+(.+?)(?:\?|$)`) tried
at one position; returns `(tool, group0, group2)` and the rest.  The
optional `\s+to` is greedy: only the maximal whitespace run can be
followed by the literal `to` (shorter runs leave a whitespace character),
and if the rest of the pattern then fails the option backtracks to empty. -/
def toolMatchAt (s : List Char) : Option ((String × List Char × List Char) × List Char) :=
  let pre := "Allow ".data
  if pre.isPrefixOf s then
    TOOL_ALTS.findSome? fun tool =>
      let rest := s.drop pre.length
      if tool.data.isPrefixOf rest then
        let afterTool := rest.drop tool.data.length
        let k := (afterTool.takeWhile pyIsSpace).length
        let withTo : Option (List Char × List Char) :=
          if k ≥ 1 && "to".data.isPrefixOf (afterTool.drop k) then
            toolTail (afterTool.drop (k + 2))
          else none
        match withTo with
        | some (g2, rest2) => some ((tool, s.take (s.length - rest2.length), g2), rest2)
        | none =>
          match toolTail afterTool with
          | some (g2, rest2) => some ((tool, s.take (s.length - rest2.length), g2), rest2)
          | none => none
      else none
  else none

/-- The three phrase endings of `_GENERIC_PROMPT_RE`, in alternation order. -/
def GENERIC_ALTS : List String := ["allow", "proceed", "continue"]

/-- `_GENERIC_PROMPT_RE` (`Do you want to (?:allow|proceed|continue)`)
tried at one position; returns group0 and the rest. -/
def genericMatchAt (s : List Char) : Option (List Char × List Char) :=
  let pre := "Do you want to ".data
  if pre.isPrefixOf s then
    GENERIC_ALTS.findSome? fun alt =>
      if alt.data.isPrefixOf (s.drop pre.length) then
        some (pre ++ alt.data, s.drop (pre.length + alt.data.length))
      else none
  else none

/-- Tier 1 of `detect_prompts`: Bash prompts. -/
def bashPrompts (text : List Char) : List DetectedPrompt :=
  (finditer bashMatchAt text).map fun m =>
    let cmd := pyStrip m.2
    let rs := classify_risk "Bash" cmd
    { raw := pyStrip m.1, tool := "Bash", action := cmd, risk := rs.1, suggestion := rs.2 }

/-- Tier 2 of `detect_prompts`: non-Bash tool prompts. -/
def toolPrompts (text : List Char) : List DetectedPrompt :=
  (finditer toolMatchAt text).map fun m =>
    let action := pyStrip m.2.2
    let rs := classify_risk m.1 action
    { raw := pyStrip m.2.1, tool := m.1, action := action, risk := rs.1, suggestion := rs.2 }

/-- Tier 3 of `detect_prompts`: the generic fallback, with hard-wired
high/escalate and no classification lookup. -/
def genericPrompts (text : List Char) : List DetectedPrompt :=
  (finditer genericMatchAt text).map fun g0 =>
    { raw := pyStrip g0, tool := "unknown", action := g0, risk := "high", suggestion := "escalate" }

/-- `detect_prompts`: scan pane text for permission prompts.  Tiers 1 and 2
are concatenated; the generic fallback runs only if they found nothing. -/
def detect_prompts (text : List Char) : List DetectedPrompt :=
  let prompts := bashPrompts text ++ toolPrompts text
  if prompts.isEmpty then genericPrompts text else prompts

-- -----------------------------------------------------------
-- Lifecycle event detection (`monitor.py` lines 230-288)
-- -----------------------------------------------------------

/-- `LifecycleEvent`: a lifecycle event detected in pane output. -/
structure LifecycleEvent : Type where
  kind : String
  detail : List Char
deriving DecidableEq

/-- A `re.Match` as `detect_events` consumes it: `group(0)` and, for the
`context_low` pattern, the `(\d+)` capture. -/
structure EvMatch : Type where
  g0 : List Char
  g1 : Option (List Char)
deriving DecidableEq

/-- Decimal digit character (as produced by Python's `str(int)`). -/
def digitChar : Nat → Char
  | 0 => '0' | 1 => '1' | 2 => '2' | 3 => '3' | 4 => '4'
  | 5 => '5' | 6 => '6' | 7 => '7' | 8 => '8' | 9 => '9'
  | _ => '*'

/-- Decimal representation of a natural number, most significant digit
first (accumulator form).  Fuel-based so the definition reduces; `n / 10`
strictly decreases, so `n + 1` fuel never runs out. -/
def natReprAux : Nat → Nat → List Char → List Char
  | 0, _, acc => acc
  | fuel + 1, n, acc =>
    if n < 10 then digitChar n :: acc
    else natReprAux fuel (n / 10) (digitChar (n % 10) :: acc)

/-- Python `str(n)` for a natural number. -/
def natRepr (n : Nat) : List Char := natReprAux (n + 1) n []

/-- Python `str(i)` for an integer. -/
def intRepr (i : Int) : List Char :=
  if i < 0 then '-' :: natRepr i.natAbs else natRepr i.natAbs

/-- Python `int(s)`: optional surrounding whitespace, optional sign, at
least one digit; anything else raises `ValueError`, modelled as `none`. -/
def parsePyInt (s : List Char) : Option Int :=
  let digitsVal : List Char → Option Nat := fun ds =>
    if !ds.isEmpty && ds.all pyIsDigit then
      some (ds.foldl (fun acc c => acc * 10 + (c.toNat - '0'.toNat)) 0)
    else none
  match pyStrip s with
  | '+' :: ds => (digitsVal ds).map Int.ofNat
  | '-' :: ds => (digitsVal ds).map fun n => -(Int.ofNat n)
  | ds => (digitsVal ds).map Int.ofNat

/-- The `context_low` pattern
(`Context left until auto-compact:\s*(\d+)%`) tried at one position.
After the literal, greedy `\s*` and `(\d+)` are deterministic: whitespace
and digit classes are disjoint and the trailing `%` is in neither. -/
def ctxLowMatchAt (s : List Char) : Option EvMatch :=
  let lit := "Context left until auto-compact:".data
  if lit.isPrefixOf s then
    let r := s.drop lit.length
    let ws := r.takeWhile pyIsSpace
    let r2 := r.drop ws.length
    let ds := r2.takeWhile pyIsDigit
    if !ds.isEmpty && (r2.drop ds.length).head? == some '%' then
      some ⟨lit ++ ws ++ ds ++ ['%'], some ds⟩
    else none
  else none

/-- `re.search` as a plain first-success scan over suffixes. -/
def searchFirst (f : List Char → Option α) : List Char → Option α
  | [] => f []
  | s@(_ :: t) =>
    match f s with
    | some a => some a
    | none => searchFirst f t

/-- Search for the `pr_created` pattern (`https?://github\.com/[^\s]+/pull/\d+`). -/
def prCreatedSearch (text : List Char) : Option EvMatch :=
  (reSearchG0 ⟨false, reSeq [.lit "http".data, .opt (.lit "s".data), .lit "://github.com/".data,
    .plus (fun c => !pyIsSpace c), .lit "/pull/".data, .plus pyIsDigit]⟩ text).map
    fun g0 => ⟨g0, none⟩

/-- Search for the `finished` pattern (`═+\s*Work Complete\s*═+`). -/
def finishedSearch (text : List Char) : Option EvMatch :=
  (reSearchG0 ⟨false, reSeq [.plus (fun c => c == '═'), .star pyIsSpace,
    .lit "Work Complete".data, .star pyIsSpace, .plus (fun c => c == '═')]⟩ text).map
    fun g0 => ⟨g0, none⟩

/-- Search for the `context_low` pattern. -/
def ctxLowSearch (text : List Char) : Option EvMatch :=
  searchFirst ctxLowMatchAt text

/-- Search for the `context_exhausted` pattern (`auto-compact`, `re.IGNORECASE`). -/
def ctxExhaustedSearch (text : List Char) : Option EvMatch :=
  (reSearchG0 ⟨false, .litCI "auto-compact".data⟩ text).map fun g0 => ⟨g0, none⟩

/-- `_EVENT_PATTERNS`: the fixed, ordered (kind, pattern) table. -/
def EVENT_PATTERNS : List (String × (List Char → Option EvMatch)) :=
  [("pr_created", prCreatedSearch),
   ("finished", finishedSearch),
   ("context_low", ctxLowSearch),
   ("context_exhausted", ctxExhaustedSearch)]

/-- The loop body of `detect_events`, including its `seen` set (redundant
for a table with pairwise-distinct kinds, but kept faithful). -/
def detectEventsGo (text : List Char) :
    List (String × (List Char → Option EvMatch)) → List String → List LifecycleEvent
  | [], _ => []
  | (kind, search) :: tbl, seen =>
    match search text with
    | some m =>
      if seen.contains kind then detectEventsGo text tbl seen
      else
        let seen := kind :: seen
        -- For context_low, only fire if < 15%
        if kind == "context_low" then
          match m.g1 with
          | some ds =>
            match parsePyInt ds with
            | some pct =>
              if pct ≥ 15 then detectEventsGo text tbl seen
              else ⟨kind, intRepr pct ++ "% remaining".data⟩ :: detectEventsGo text tbl seen
            | none => detectEventsGo text tbl seen
          | none => detectEventsGo text tbl seen
        else ⟨kind, m.g0⟩ :: detectEventsGo text tbl seen
    | none => detectEventsGo text tbl seen

/-- `detect_events`: scan pane text for lifecycle events. -/
def detect_events (text : List Char) : List LifecycleEvent :=
  detectEventsGo text EVENT_PATTERNS []

-- -----------------------------------------------------------
-- Pane status inference (`monitor.py` lines 295-309)
-- -----------------------------------------------------------

/-- `infer_status`: infer overall pane status from detections (the
source's `for` loop returns `"done"` on the first `finished` event, which
is the same as an existence check). -/
def infer_status (prompts : List DetectedPrompt) (events : List LifecycleEvent) : String :=
  if !prompts.isEmpty then "waiting"
  else if events.any (fun ev => ev.kind == "finished") then "done"
  else "working"

-- -----------------------------------------------------------
-- Report formatting (`monitor.py` lines 316-399)
-- -----------------------------------------------------------

/-- `PaneReport`: monitoring report for a single pane. -/
structure PaneReport : Type where
  target : List Char
  agent : List Char
  status : String
  prompts : List DetectedPrompt := []
  events : List LifecycleEvent := []
deriving DecidableEq

/-- Python `"sep".join(parts)`. -/
def joinSep (sep : List Char) : List (List Char) → List Char
  | [] => []
  | [x] => x
  | x :: xs => x ++ sep ++ joinSep sep xs

/-- Hex digit character, for Python `repr` escapes. -/
def hexChar : Nat → Char
  | 0 => '0' | 1 => '1' | 2 => '2' | 3 => '3' | 4 => '4' | 5 => '5' | 6 => '6' | 7 => '7'
  | 8 => '8' | 9 => '9' | 10 => 'a' | 11 => 'b' | 12 => 'c' | 13 => 'd' | 14 => 'e'
  | _ => 'f'

/-- One character of Python `repr(str)` with quote character `q`:
backslash and the quote are escaped, common controls use short escapes,
other ASCII controls use `\xHH`; remaining characters are kept verbatim
(non-ASCII printability subtleties are not modelled — no claim depends on
this branch). -/
def pyReprChar (q : Char) (c : Char) : List Char :=
  if c == '\\' then ['\\', '\\']
  else if c == q then ['\\', q]
  else if c == '\n' then ['\\', 'n']
  else if c == '\r' then ['\\', 'r']
  else if c == '\t' then ['\\', 't']
  else if c.toNat < 32 || c.toNat == 127 then ['\\', 'x', hexChar (c.toNat / 16 % 16), hexChar (c.toNat % 16)]
  else [c]

/-- Python `repr` of a string (the `!r` format conversion): single quotes
unless the string contains a single quote and no double quote. -/
def pyRepr (s : List Char) : List Char :=
  let q : Char := if s.contains '\'' && !s.contains '"' then '"' else '\''
  q :: (s.flatMap (pyReprChar q) ++ [q])

/-- The per-pane block lines of `format_report`. -/
def paneBlock (r : PaneReport) : List (List Char) :=
  (("=== ".data ++ r.target ++ " (".data ++ (if r.agent.isEmpty then "?".data else r.agent)
      ++ ") ===".data)
    :: ("status: ".data ++ r.status.data)
    :: (r.events.map fun ev => "event: ".data ++ ev.kind.data ++ " — ".data ++ ev.detail))
  ++ (r.prompts.flatMap fun p =>
      ["prompt:".data,
       "  raw: ".data ++ pyRepr p.raw,
       "  tool: ".data ++ p.tool.data,
       "  action: ".data ++ p.action,
       "  risk: ".data ++ p.risk.data,
       "  suggestion: ".data ++ p.suggestion.data])
  ++ [[]]

/-- `format_report`: format pane reports into a human-readable string. -/
def format_report (reports : List PaneReport) : List Char :=
  if reports.isEmpty then "No agent panes found.".data
  else
    let actionable := reports.filter fun r => !r.prompts.isEmpty || !r.events.isEmpty
    if actionable.isEmpty then
      let working := (reports.filter fun r => r.status == "working").length
      let done := (reports.filter fun r => r.status == "done").length
      let parts := (if working ≠ 0 then [natRepr working ++ " working".data] else [])
        ++ (if done ≠ 0 then [natRepr done ++ " done".data] else [])
      natRepr reports.length ++ " agent(s): ".data
        ++ joinSep ", ".data (if parts.isEmpty then ["all idle".data] else parts)
        ++ ". 0 prompts, 0 events.".data
    else
      let lines := reports.flatMap paneBlock
      let quiet := reports.length - actionable.length
      let lines := if quiet ≠ 0 then
          lines ++ ["(".data ++ natRepr quiet ++ " other agent(s) working quietly)".data]
        else lines
      joinSep "\n".data lines

/-- The chaining/substitution constructs recognized by `_CHAINING_RE`
(`&&`, `||`, `;`, `|`, `$(`, backtick), as literal token strings: the
pattern is an alternation of these, so it matches exactly when one of
them occurs somewhere in the command. -/
def CHAIN_TOKENS : List (List Char) :=
  [['&', '&'], ['|', '|'], [';'], ['|'], ['$', '('], "`".data]

-- -----------------------------------------------------------
-- Helper lemmas
-- -----------------------------------------------------------

theorem infixOfPrefix {α : Type} {pat l : List α} (h : pat <+: l) : pat <:+: l := by
  obtain ⟨u, hu⟩ := h
  exact ⟨[], u, by simpa using hu⟩

theorem infixCons {α : Type} {pat t : List α} (c : α) (h : pat <:+: t) : pat <:+: c :: t := by
  obtain ⟨a, b, hab⟩ := h
  exact ⟨c :: a, b, by simp [hab]⟩

theorem revInfix {α : Type} {pat l : List α} (h : pat <:+: l) : pat.reverse <:+: l.reverse := by
  obtain ⟨a, b, hab⟩ := h
  exact ⟨b.reverse, a.reverse, by rw [← hab]; simp⟩

theorem infixDropWhile (p : Char → Bool) (pat : List Char)
    (hne : pat ≠ []) (hnp : ∀ c ∈ pat, p c = false) :
    ∀ s : List Char, pat <:+: s → pat <:+: s.dropWhile p := by
  intro s
  induction s with
  | nil => intro h; rw [List.infix_nil] at h; exact absurd h hne
  | cons c t ih =>
    intro h
    rw [List.dropWhile_cons]
    rcases List.infix_cons_iff.mp h with hpre | hinf
    · by_cases hc : p c = true
      · cases pat with
        | nil => exact absurd rfl hne
        | cons d pat2 =>
          obtain ⟨u, hu⟩ := hpre
          have hd : d = c := by
            have := congrArg List.head? hu
            simpa using this
          have : p d = false := hnp d (by simp)
          rw [hd, hc] at this
          exact absurd this (by simp)
      · rw [if_neg hc]
        exact infixOfPrefix hpre
    · by_cases hc : p c = true
      · rw [if_pos hc]; exact ih hinf
      · rw [if_neg hc]; exact infixCons c hinf

theorem infixPyStrip (pat : List Char) (hne : pat ≠ [])
    (hnp : ∀ c ∈ pat, pyIsSpace c = false) {s : List Char}
    (h : pat <:+: s) : pat <:+: pyStrip s := by
  unfold pyStrip
  have h1 := infixDropWhile pyIsSpace pat hne hnp s h
  have h2 := revInfix h1
  have h3 := infixDropWhile pyIsSpace pat.reverse (by simpa using hne)
    (fun c hc => hnp c (List.mem_reverse.mp hc)) _ h2
  have h4 := revInfix h3
  simpa using h4

theorem litRun_ne_nil : ∀ (cs : List Char) (prev : Option Char) (s : List Char),
    cs <+: s → litRun cs prev s ≠ [] := by
  intro cs
  induction cs with
  | nil => intro prev s _; simp [litRun]
  | cons c cs2 ih =>
    intro prev s h
    obtain ⟨t, ht⟩ := h
    subst ht
    simp only [litRun, List.cons_append]
    rw [if_pos (by simp)]
    exact ih (some c) _ ⟨t, rfl⟩

theorem chainTokens_facts :
    ∀ tok ∈ CHAIN_TOKENS, tok ≠ [] ∧ ∀ c ∈ tok, pyIsSpace c = false := by
  decide

theorem chainRun_ne_nil {s : List Char} (prev : Option Char)
    (h : ∃ tok ∈ CHAIN_TOKENS, tok <+: s) :
    reRun CHAINING_RE.re prev s ≠ [] := by
  obtain ⟨tok, hm, hp⟩ := h
  simp only [CHAIN_TOKENS, List.mem_cons, List.not_mem_nil, or_false] at hm
  have expand : reRun CHAINING_RE.re prev s =
      litRun "&&".data prev s ++ (litRun "||".data prev s ++
      (reRun (.one fun c => c == ';' || c == '|') prev s ++
      (litRun "$(".data prev s ++ litRun "`".data prev s))) := rfl
  rw [expand]
  intro hnil
  simp only [List.append_eq_nil] at hnil
  obtain ⟨e1, e2, e3, e4, e5⟩ := hnil
  rcases hm with rfl | rfl | rfl | rfl | rfl | rfl
  · exact litRun_ne_nil _ _ _ hp e1
  · exact litRun_ne_nil _ _ _ hp e2
  · obtain ⟨t, ht⟩ := hp
    have hs : s = ';' :: t := by rw [← ht]; rfl
    subst hs
    simp [reRun] at e3
  · obtain ⟨t, ht⟩ := hp
    have hs : s = '|' :: t := by rw [← ht]; rfl
    subst hs
    simp [reRun] at e3
  · exact litRun_ne_nil _ _ _ hp e4
  · exact litRun_ne_nil _ _ _ hp e5

theorem chainFind_isSome : ∀ (s : List Char) (prev : Option Char),
    (∃ tok ∈ CHAIN_TOKENS, tok <:+: s) →
    (reFind CHAINING_RE.re prev s).isSome = true := by
  intro s
  induction s with
  | nil =>
    intro prev h
    obtain ⟨tok, hm, hinf⟩ := h
    rw [List.infix_nil] at hinf
    subst hinf
    exact absurd rfl (chainTokens_facts [] hm).1
  | cons c t ih =>
    intro prev h
    rw [reFind]
    cases hh : (reRun CHAINING_RE.re prev (c :: t)).head? with
    | some pr => simp
    | none =>
      obtain ⟨tok, hm, hinf⟩ := h
      rcases List.infix_cons_iff.mp hinf with hpre | hinf2
      · exfalso
        have := chainRun_ne_nil prev ⟨tok, hm, hpre⟩
        rw [List.head?_eq_none_iff] at hh
        exact this hh
      · simp only [hh]
        exact ih (some c) ⟨tok, hm, hinf2⟩

theorem chainSearch_of_infix {s : List Char}
    (h : ∃ tok ∈ CHAIN_TOKENS, tok <:+: s) :
    reSearchB CHAINING_RE s = true := by
  have hb : CHAINING_RE.anchored = false := rfl
  have hf := chainFind_isSome s none h
  rw [reSearchB, reSearchG0, hb]
  cases hr : reFind CHAINING_RE.re none s with
  | none => rw [hr] at hf; simp at hf
  | some fr => simp [hr]

-- -----------------------------------------------------------
-- C1 – C4 (risk classification)
-- -----------------------------------------------------------

theorem classify_risk_bash (cmd : List Char) :
    classify_risk "Bash" cmd = classify_bash cmd := by
  have h1 : "Bash" ∉ SAFE_TOOLS := by decide
  have h2 : "Bash" ∉ LOW_RISK_TOOLS := by decide
  simp [classify_risk, h1, h2]

/-- C1: a shell command containing any chaining or substitution construct
(`;`, `&&`, `||`, `|`, `$(`, or a backtick) classifies as (high, escalate),
even when its leading token would otherwise match a safe or low-risk
pattern: both the high-risk branch and the chaining branch of
`_classify_bash` return that outcome, and no later rule is reached. -/
theorem chaining_always_high (cmd : List Char)
    (h : ∃ tok ∈ CHAIN_TOKENS, tok <:+: cmd) :
    classify_risk "Bash" cmd = ("high", "escalate") := by
  rw [classify_risk_bash]
  have hs : reSearchB CHAINING_RE (pyStrip cmd) = true := by
    obtain ⟨tok, hm, hinf⟩ := h
    exact chainSearch_of_infix
      ⟨tok, hm, infixPyStrip tok (chainTokens_facts tok hm).1 (chainTokens_facts tok hm).2 hinf⟩
  by_cases hh : HIGH_RISK_BASH_PATTERNS.any (fun pat => reSearchB pat (pyStrip cmd)) = true
  · simp [classify_bash, hh]
  · simp [classify_bash, hh, hs]

/-- Witness for C1: `git status && rm -rf /` — the leading token matches the
safe `git status` pattern, yet classification is (high, escalate). -/
theorem chaining_always_high_witness :
    classify_risk "Bash" "git status && rm -rf /".data = ("high", "escalate") :=
  chaining_always_high _ ⟨"&&".data, by decide, by decide⟩

/-- C2: a shell command matching a high-risk pattern classifies as
(high, escalate) no matter what else matches — the high-risk table is
consulted before the chaining, safe and low-risk rules. -/
theorem high_risk_precedence (cmd : List Char)
    (h : HIGH_RISK_BASH_PATTERNS.any (fun pat => reSearchB pat (pyStrip cmd)) = true) :
    classify_risk "Bash" cmd = ("high", "escalate") := by
  rw [classify_risk_bash]
  simp [classify_bash, h]

/-- Witness for C2: `git status --force` matches the high-risk
`git ... --force` pattern and the safe `git status` pattern at once, and
the high-risk outcome wins. -/
theorem high_risk_precedence_witness :
    SAFE_BASH_PATTERNS.any
      (fun pat => reSearchB pat (pyStrip "git status --force".data)) = true ∧
    classify_risk "Bash" "git status --force".data = ("high", "escalate") :=
  ⟨by decide, high_risk_precedence _ (by decide)⟩

/-- C3: every tool in the safe-tool set classifies as (safe, approve) for
every action string; the action is never consulted. -/
theorem safe_tools_always_safe (tool : String) (action : List Char)
    (h : tool ∈ SAFE_TOOLS) :
    classify_risk tool action = ("safe", "approve") := by
  simp [classify_risk, h]

/-- Witness for C3: the Read tool approves even a destructive-looking action. -/
theorem safe_tools_always_safe_witness :
    classify_risk "Read" "/etc/passwd; rm -rf /".data = ("safe", "approve") :=
  safe_tools_always_safe "Read" _ (by decide)

/-- C4: `classify_risk` is total and fail-closed: a tool outside the safe
set, low-risk set, `Bash` and `unknown` yields (high, escalate); a shell
command matching no high-risk, chaining, safe or low-risk rule yields
(high, escalate); and every input pair yields one of the three defined
(risk, suggestion) outcomes. -/
theorem fail_closed :
    (∀ (tool : String) (action : List Char),
        tool ∉ SAFE_TOOLS → tool ∉ LOW_RISK_TOOLS → tool ≠ "Bash" → tool ≠ "unknown" →
        classify_risk tool action = ("high", "escalate")) ∧
    (∀ cmd : List Char,
        HIGH_RISK_BASH_PATTERNS.any (fun pat => reSearchB pat (pyStrip cmd)) = false →
        reSearchB CHAINING_RE (pyStrip cmd) = false →
        SAFE_BASH_PATTERNS.any (fun pat => reSearchB pat (pyStrip cmd)) = false →
        LOW_RISK_BASH_PATTERNS.any (fun pat => reSearchB pat (pyStrip cmd)) = false →
        classify_bash cmd = ("high", "escalate")) ∧
    (∀ (tool : String) (action : List Char),
        classify_risk tool action = ("safe", "approve") ∨
        classify_risk tool action = ("low", "review") ∨
        classify_risk tool action = ("high", "escalate")) := by
  refine ⟨?_, ?_, ?_⟩
  · intro tool action h1 h2 h3 h4
    simp [classify_risk, h1, h2, h3, h4]
  · intro cmd h1 h2 h3 h4
    simp [classify_bash, h1, h2, h3, h4]
  · intro tool action
    rw [classify_risk]
    split
    · exact Or.inl rfl
    split
    · exact Or.inr (Or.inl rfl)
    split
    · rw [classify_bash]
      split
      · exact Or.inr (Or.inr rfl)
      split
      · exact Or.inr (Or.inr rfl)
      split
      · exact Or.inl rfl
      split
      · exact Or.inr (Or.inl rfl)
      · exact Or.inr (Or.inr rfl)
    split
    · exact Or.inr (Or.inr rfl)
    · exact Or.inr (Or.inr rfl)

/-- Witness for C4: an unrecognized tool and an unrecognized shell command
both fall through to (high, escalate). -/
theorem fail_closed_witness :
    classify_risk "FooTool" "x".data = ("high", "escalate") ∧
    classify_bash "frobnicate".data = ("high", "escalate") :=
  ⟨fail_closed.1 "FooTool" "x".data (by decide) (by decide) (by decide) (by decide),
   fail_closed.2.1 "frobnicate".data (by decide) (by decide) (by decide) (by decide)⟩

-- -----------------------------------------------------------
-- C8 (status inference)
-- -----------------------------------------------------------

/-- C8: `infer_status` returns `waiting` exactly on a non-empty prompt
list; otherwise `done` exactly when a `finished` event is present;
otherwise `working` — and nothing else (`watching` and `paused` are never
produced). -/
theorem status_inference :
    (∀ (ps : List DetectedPrompt) (es : List LifecycleEvent),
        ps ≠ [] → infer_status ps es = "waiting") ∧
    (∀ (ps : List DetectedPrompt) (es : List LifecycleEvent),
        ps = [] → (∃ e ∈ es, e.kind = "finished") → infer_status ps es = "done") ∧
    (∀ (ps : List DetectedPrompt) (es : List LifecycleEvent),
        ps = [] → (∀ e ∈ es, e.kind ≠ "finished") → infer_status ps es = "working") ∧
    (∀ (ps : List DetectedPrompt) (es : List LifecycleEvent),
        infer_status ps es = "working" ∨ infer_status ps es = "waiting" ∨
        infer_status ps es = "done") := by
  refine ⟨?_, ?_, ?_, ?_⟩
  · intro ps es h
    simp [infer_status, List.isEmpty_iff, h]
  · intro ps es h ⟨e, he, hk⟩
    subst h
    have : (List.any es fun ev => ev.kind == "finished") = true :=
      List.any_eq_true.mpr ⟨e, he, by simp [hk]⟩
    simp [infer_status, this]
  · intro ps es h hk
    subst h
    have : (List.any es fun ev => ev.kind == "finished") = false := by
      rw [Bool.eq_false_iff]
      intro hc
      obtain ⟨e, he, hb⟩ := List.any_eq_true.mp hc
      exact hk e he (by simpa using hb)
    simp [infer_status, this]
  · intro ps es
    rw [infer_status]
    split
    · exact Or.inr (Or.inl rfl)
    split
    · exact Or.inr (Or.inr rfl)
    · exact Or.inl rfl

/-- Witness for C8: one pending prompt dominates a `finished` event. -/
theorem status_inference_witness :
    infer_status [⟨"x".data, "Edit", "f".data, "low", "review"⟩]
      [⟨"finished", "d".data⟩] = "waiting" :=
  status_inference.1 _ _ (by decide)

-- -----------------------------------------------------------
-- C5 (prompt detection tiers)
-- -----------------------------------------------------------

theorem finditerAux_succ {α : Type} (f : List Char → Option (α × List Char))
    (fuel : Nat) (s : List Char) :
    finditerAux f (fuel + 1) s =
      match f s with
      | some (a, rest) =>
        a :: (if s.isEmpty then []
              else finditerAux f fuel (s.drop (max (s.length - rest.length) 1)))
      | none =>
        match s with
        | [] => []
        | _ :: t => finditerAux f fuel t := rfl

theorem mem_finditerAux {α : Type} (f : List Char → Option (α × List Char)) :
    ∀ (fuel : Nat) (s : List Char) (a : α), a ∈ finditerAux f fuel s →
      ∃ s2 r, f s2 = some (a, r) := by
  intro fuel
  induction fuel with
  | zero => intro s a h; simp [finditerAux] at h
  | succ fuel ih =>
    intro s a h
    rw [finditerAux_succ] at h
    cases hf : f s with
    | some ar =>
      obtain ⟨a2, rest⟩ := ar
      rw [hf] at h
      simp only [List.mem_cons] at h
      rcases h with rfl | h2
      · exact ⟨s, rest, hf⟩
      · split at h2
        · simp at h2
        · exact ih _ _ h2
    | none =>
      rw [hf] at h
      cases s with
      | nil => simp at h
      | cons c t => exact ih _ _ h

theorem mem_finditer {α : Type} {f : List Char → Option (α × List Char)}
    {s : List Char} {a : α} (h : a ∈ finditer f s) :
    ∃ s2 r, f s2 = some (a, r) :=
  mem_finditerAux f _ s a h

theorem toolMatchAt_tool {s : List Char} {m : String × List Char × List Char}
    {rest : List Char} (h : toolMatchAt s = some (m, rest)) : m.1 ∈ TOOL_ALTS := by
  rw [toolMatchAt] at h
  split at h
  · obtain ⟨tool, hmem, hf⟩ := List.exists_of_findSome?_eq_some h
    simp only at hf
    split at hf
    · split at hf
      · injection hf with hf2
        injection hf2 with h1 h2
        rw [← h1]
        exact hmem
      · split at hf
        · injection hf with hf2
          injection hf2 with h1 h2
          rw [← h1]
          exact hmem
        · exact absurd hf (by simp)
    · exact absurd hf (by simp)
  · exact absurd h (by simp)

theorem genericMatchAt_g0 {s g0 rest : List Char}
    (h : genericMatchAt s = some (g0, rest)) :
    g0 ∈ ["Do you want to allow".data, "Do you want to proceed".data,
          "Do you want to continue".data] := by
  rw [genericMatchAt] at h
  simp only at h
  split at h
  · obtain ⟨alt, hmem, hf⟩ := List.exists_of_findSome?_eq_some h
    split at hf
    · injection hf with hf2
      simp only [GENERIC_ALTS, List.mem_cons, List.not_mem_nil, or_false] at hmem
      rcases hmem with rfl | rfl | rfl
      · rw [show g0 = "Do you want to ".data ++ "allow".data from by
          injection hf2 with h1 h2; exact h1.symm]
        decide
      · rw [show g0 = "Do you want to ".data ++ "proceed".data from by
          injection hf2 with h1 h2; exact h1.symm]
        decide
      · rw [show g0 = "Do you want to ".data ++ "continue".data from by
          injection hf2 with h1 h2; exact h1.symm]
        decide
    · exact absurd hf (by simp)
  · exact absurd h (by simp)

/-- C5: the generic-fallback tier contributes only when tiers 1–2 found
nothing: if the Bash and named-tool tiers produced any prompt,
`detect_prompts` returns exactly their concatenation and no prompt with
tool `unknown` appears; if they produced none, the result is exactly the
generic tier, whose prompts all have tool `unknown`, action equal to the
matched phrase, and hard-wired (high, escalate). -/
theorem generic_fallback (text : List Char) :
    (bashPrompts text ++ toolPrompts text ≠ [] →
      detect_prompts text = bashPrompts text ++ toolPrompts text ∧
      ∀ p ∈ detect_prompts text, p.tool ≠ "unknown") ∧
    (bashPrompts text ++ toolPrompts text = [] →
      detect_prompts text = genericPrompts text ∧
      ∀ p ∈ detect_prompts text, p.tool = "unknown" ∧ p.risk = "high" ∧
        p.suggestion = "escalate" ∧ p.action = p.raw ∧
        p.action ∈ ["Do you want to allow".data, "Do you want to proceed".data,
                    "Do you want to continue".data]) := by
  constructor
  · intro h
    have hd : detect_prompts text = bashPrompts text ++ toolPrompts text := by
      simp [detect_prompts, h]
    refine ⟨hd, ?_⟩
    rw [hd]
    intro p hp
    rcases List.mem_append.mp hp with hp2 | hp2
    · obtain ⟨m, hm2, rfl⟩ := List.mem_map.mp hp2
      show ("Bash" : String) ≠ "unknown"
      decide
    · obtain ⟨m, hm2, rfl⟩ := List.mem_map.mp hp2
      obtain ⟨s2, r, hf⟩ := mem_finditer hm2
      have hmem := toolMatchAt_tool hf
      show m.1 ≠ "unknown"
      intro hc
      rw [hc] at hmem
      exact absurd hmem (by decide)
  · intro h
    have hd : detect_prompts text = genericPrompts text := by
      simp [detect_prompts, h]
    refine ⟨hd, ?_⟩
    rw [hd]
    intro p hp
    obtain ⟨g0, hg, rfl⟩ := List.mem_map.mp hp
    obtain ⟨s2, r, hf⟩ := mem_finditer hg
    have h3 := genericMatchAt_g0 hf
    have hstrip : pyStrip g0 = g0 := by
      simp only [List.mem_cons, List.not_mem_nil, or_false] at h3
      rcases h3 with rfl | rfl | rfl <;> decide
    exact ⟨rfl, rfl, rfl, hstrip.symm, h3⟩

/-- Witness for C5: a Bash prompt suppresses the generic tier even when a
generic phrase is present, and a lone generic phrase yields only
hard-wired unknown/high/escalate prompts. -/
theorem generic_fallback_witness :
    (detect_prompts "Allow Bash\n$ git status\nDo you want to proceed?".data =
      bashPrompts "Allow Bash\n$ git status\nDo you want to proceed?".data ++
      toolPrompts "Allow Bash\n$ git status\nDo you want to proceed?".data ∧
     ∀ p ∈ detect_prompts "Allow Bash\n$ git status\nDo you want to proceed?".data,
       p.tool ≠ "unknown") ∧
    (∀ p ∈ detect_prompts "Do you want to proceed? ok".data,
       p.tool = "unknown" ∧ p.risk = "high" ∧ p.suggestion = "escalate" ∧
       p.action = p.raw ∧
       p.action ∈ ["Do you want to allow".data, "Do you want to proceed".data,
                   "Do you want to continue".data]) :=
  ⟨(generic_fallback _).1 (by decide), ((generic_fallback _).2 (by decide)).2⟩

-- -----------------------------------------------------------
-- C6, C7, C10 (lifecycle events)
-- -----------------------------------------------------------

theorem detectEventsGo_nil (text : List Char) (seen : List String) :
    detectEventsGo text [] seen = [] := rfl

theorem detectEventsGo_cons (text : List Char) (kind : String)
    (search : List Char → Option EvMatch)
    (tbl : List (String × (List Char → Option EvMatch))) (seen : List String) :
    detectEventsGo text ((kind, search) :: tbl) seen =
      match search text with
      | some m =>
        if seen.contains kind then detectEventsGo text tbl seen
        else
          if kind == "context_low" then
            match m.g1 with
            | some ds =>
              match parsePyInt ds with
              | some pct =>
                if pct ≥ 15 then detectEventsGo text tbl (kind :: seen)
                else ⟨kind, intRepr pct ++ "% remaining".data⟩ ::
                  detectEventsGo text tbl (kind :: seen)
              | none => detectEventsGo text tbl (kind :: seen)
            | none => detectEventsGo text tbl (kind :: seen)
          else ⟨kind, m.g0⟩ :: detectEventsGo text tbl (kind :: seen)
      | none => detectEventsGo text tbl seen := rfl

theorem stepNone (text : List Char) (kind : String) (search : List Char → Option EvMatch)
    (tbl : List (String × (List Char → Option EvMatch))) (seen : List String)
    (hm : search text = none) :
    detectEventsGo text ((kind, search) :: tbl) seen = detectEventsGo text tbl seen := by
  simp [detectEventsGo_cons, hm]

theorem stepSeen (text : List Char) (kind : String) (search : List Char → Option EvMatch)
    (tbl : List (String × (List Char → Option EvMatch))) (seen : List String) (m : EvMatch)
    (hm : search text = some m) (hs : kind ∈ seen) :
    detectEventsGo text ((kind, search) :: tbl) seen = detectEventsGo text tbl seen := by
  simp [detectEventsGo_cons, hm, hs]

theorem stepOther (text : List Char) (kind : String) (search : List Char → Option EvMatch)
    (tbl : List (String × (List Char → Option EvMatch))) (seen : List String) (m : EvMatch)
    (hm : search text = some m) (hs : kind ∉ seen) (hk : kind ≠ "context_low") :
    detectEventsGo text ((kind, search) :: tbl) seen =
      ⟨kind, m.g0⟩ :: detectEventsGo text tbl (kind :: seen) := by
  simp [detectEventsGo_cons, hm, hs, hk]

theorem stepCtxNoG1 (text : List Char) (kind : String) (search : List Char → Option EvMatch)
    (tbl : List (String × (List Char → Option EvMatch))) (seen : List String) (m : EvMatch)
    (hm : search text = some m) (hs : kind ∉ seen) (hk : kind = "context_low")
    (hg : m.g1 = none) :
    detectEventsGo text ((kind, search) :: tbl) seen =
      detectEventsGo text tbl (kind :: seen) := by
  subst hk
  simp [detectEventsGo_cons, hm, hs, hg]

theorem stepCtxNoParse (text : List Char) (kind : String) (search : List Char → Option EvMatch)
    (tbl : List (String × (List Char → Option EvMatch))) (seen : List String) (m : EvMatch)
    (ds : List Char) (hm : search text = some m) (hs : kind ∉ seen)
    (hk : kind = "context_low") (hg : m.g1 = some ds) (hp : parsePyInt ds = none) :
    detectEventsGo text ((kind, search) :: tbl) seen =
      detectEventsGo text tbl (kind :: seen) := by
  subst hk
  simp [detectEventsGo_cons, hm, hs, hg, hp]

theorem stepCtxHigh (text : List Char) (kind : String) (search : List Char → Option EvMatch)
    (tbl : List (String × (List Char → Option EvMatch))) (seen : List String) (m : EvMatch)
    (ds : List Char) (pct : Int) (hm : search text = some m) (hs : kind ∉ seen)
    (hk : kind = "context_low") (hg : m.g1 = some ds) (hp : parsePyInt ds = some pct)
    (hge : pct ≥ 15) :
    detectEventsGo text ((kind, search) :: tbl) seen =
      detectEventsGo text tbl (kind :: seen) := by
  subst hk
  simp [detectEventsGo_cons, hm, hs, hg, hp, hge]

theorem stepCtxLow (text : List Char) (kind : String) (search : List Char → Option EvMatch)
    (tbl : List (String × (List Char → Option EvMatch))) (seen : List String) (m : EvMatch)
    (ds : List Char) (pct : Int) (hm : search text = some m) (hs : kind ∉ seen)
    (hk : kind = "context_low") (hg : m.g1 = some ds) (hp : parsePyInt ds = some pct)
    (hlt : pct < 15) :
    detectEventsGo text ((kind, search) :: tbl) seen =
      ⟨kind, intRepr pct ++ "% remaining".data⟩ :: detectEventsGo text tbl (kind :: seen) := by
  have hge : ¬(pct ≥ 15) := by omega
  subst hk
  simp [detectEventsGo_cons, hm, hs, hg, hp, hge]

theorem detectEventsGo_kinds (text : List Char) :
    ∀ (tbl : List (String × (List Char → Option EvMatch))) (seen : List String),
      List.Sublist ((detectEventsGo text tbl seen).map LifecycleEvent.kind)
        (tbl.map Prod.fst) := by
  intro tbl
  induction tbl with
  | nil => intro seen; simp [detectEventsGo_nil]
  | cons entry tbl ih =>
    intro seen
    obtain ⟨kind, search⟩ := entry
    cases hm : search text with
    | none => rw [stepNone text kind search tbl seen hm]; exact (ih seen).cons _
    | some m =>
      by_cases hs : kind ∈ seen
      · rw [stepSeen text kind search tbl seen m hm hs]
        exact (ih seen).cons _
      · by_cases hkk : kind = "context_low"
        · cases hg : m.g1 with
          | none =>
            rw [stepCtxNoG1 text kind search tbl seen m hm hs hkk hg]
            exact (ih _).cons _
          | some ds =>
            cases hp : parsePyInt ds with
            | none =>
              rw [stepCtxNoParse text kind search tbl seen m ds hm hs hkk hg hp]
              exact (ih _).cons _
            | some pct =>
              by_cases hge : pct ≥ 15
              · rw [stepCtxHigh text kind search tbl seen m ds pct hm hs hkk hg hp hge]
                exact (ih _).cons _
              · rw [stepCtxLow text kind search tbl seen m ds pct hm hs hkk hg hp (by omega)]
                exact (ih _).cons₂ _
        · rw [stepOther text kind search tbl seen m hm hs hkk]
          exact (ih _).cons₂ _

/-- The kinds emitted by `detect_events` are, in order, a sublist of the
four table kinds. -/
theorem detect_events_kinds (text : List Char) :
    List.Sublist ((detect_events text).map LifecycleEvent.kind)
      ["pr_created", "finished", "context_low", "context_exhausted"] :=
  detectEventsGo_kinds text EVENT_PATTERNS []

/-- C6: `detect_events` emits at most one event per kind from a single
input (each kind appears once in the table and each pattern is searched
once, first match only). -/
theorem events_at_most_one_per_kind (text : List Char) (kind : String) :
    ((detect_events text).filter (fun e => e.kind == kind)).length ≤ 1 := by
  have hnd : ((detect_events text).map LifecycleEvent.kind).Nodup :=
    List.Nodup.sublist (detect_events_kinds text) (by decide)
  have hc : ((detect_events text).filter (fun e => e.kind == kind)).length =
      ((detect_events text).map LifecycleEvent.kind).count kind := by
    rw [List.count_eq_countP, List.countP_map, List.countP_eq_length_filter]
    rfl
  rw [hc]
  exact List.nodup_iff_count_le_one.mp hnd kind

theorem detectEventsGo_ctxlow (text : List Char) :
    ∀ (tbl : List (String × (List Char → Option EvMatch))) (seen : List String)
      (e : LifecycleEvent), e ∈ detectEventsGo text tbl seen → e.kind = "context_low" →
      ∃ search, ("context_low", search) ∈ tbl ∧
        ∃ m ds pct, search text = some m ∧ m.g1 = some ds ∧
          parsePyInt ds = some pct ∧ pct < 15 ∧
          e.detail = intRepr pct ++ "% remaining".data := by
  intro tbl
  induction tbl with
  | nil => intro seen e h; rw [detectEventsGo_nil] at h; simp at h
  | cons entry tbl ih =>
    intro seen e h hk
    obtain ⟨kind, search⟩ := entry
    have tailcase : ∀ seen2, e ∈ detectEventsGo text tbl seen2 →
        ∃ s2, ("context_low", s2) ∈ (kind, search) :: tbl ∧
          ∃ m ds pct, s2 text = some m ∧ m.g1 = some ds ∧
            parsePyInt ds = some pct ∧ pct < 15 ∧
            e.detail = intRepr pct ++ "% remaining".data := by
      intro seen2 h2
      obtain ⟨s2, hs2, rest⟩ := ih seen2 e h2 hk
      exact ⟨s2, List.mem_cons_of_mem _ hs2, rest⟩
    cases hm : search text with
    | none =>
      rw [stepNone text kind search tbl seen hm] at h
      exact tailcase seen h
    | some m =>
      by_cases hs : kind ∈ seen
      · rw [stepSeen text kind search tbl seen m hm hs] at h
        exact tailcase seen h
      · by_cases hkk : kind = "context_low"
        · cases hg : m.g1 with
          | none =>
            rw [stepCtxNoG1 text kind search tbl seen m hm hs hkk hg] at h
            exact tailcase _ h
          | some ds =>
            cases hp : parsePyInt ds with
            | none =>
              rw [stepCtxNoParse text kind search tbl seen m ds hm hs hkk hg hp] at h
              exact tailcase _ h
            | some pct =>
              by_cases hge : pct ≥ 15
              · rw [stepCtxHigh text kind search tbl seen m ds pct hm hs hkk hg hp hge] at h
                exact tailcase _ h
              · rw [stepCtxLow text kind search tbl seen m ds pct hm hs hkk hg hp
                  (by omega)] at h
                rcases List.mem_cons.mp h with rfl | h2
                · exact ⟨search, by rw [← hkk]; exact List.mem_cons_self _ _,
                    m, ds, pct, hm, hg, hp, by omega, rfl⟩
                · exact tailcase _ h2
        · rw [stepOther text kind search tbl seen m hm hs hkk] at h
          rcases List.mem_cons.mp h with rfl | h2
          · exact absurd hk hkk
          · exact tailcase _ h2

theorem detectEventsGo_emits (text : List Char) :
    ∀ (tbl : List (String × (List Char → Option EvMatch))) (seen : List String)
      (kind : String) (search : List Char → Option EvMatch) (m : EvMatch),
      (kind, search) ∈ tbl → search text = some m → kind ∉ seen →
      (tbl.map Prod.fst).Nodup → kind ≠ "context_low" →
      ∃ e ∈ detectEventsGo text tbl seen, e.kind = kind := by
  intro tbl
  induction tbl with
  | nil => intro seen kind search m hmem; simp at hmem
  | cons entry tbl ih =>
    intro seen kind search m hmem hm hs hnd hkk
    obtain ⟨k2, s2⟩ := entry
    rcases List.mem_cons.mp hmem with heq | htail
    · injection heq with h1 h2
      subst h1
      subst h2
      rw [stepOther text kind search tbl seen m hm hs hkk]
      exact ⟨⟨kind, m.g0⟩, List.mem_cons_self _ _, rfl⟩
    · have hk2 : kind ≠ k2 := by
        intro hcontra
        subst hcontra
        have hin : kind ∈ tbl.map Prod.fst := List.mem_map.mpr ⟨(kind, search), htail, rfl⟩
        simp only [List.map_cons, List.nodup_cons] at hnd
        exact hnd.1 hin
      have hnd2 : (tbl.map Prod.fst).Nodup := by
        simp only [List.map_cons, List.nodup_cons] at hnd
        exact hnd.2
      have hs3 : kind ∉ k2 :: seen := by
        simp only [List.mem_cons, not_or]
        exact ⟨hk2, hs⟩
      cases hm2 : s2 text with
      | none =>
        rw [stepNone text k2 s2 tbl seen hm2]
        exact ih seen kind search m htail hm hs hnd2 hkk
      | some m2 =>
        by_cases hs2 : k2 ∈ seen
        · rw [stepSeen text k2 s2 tbl seen m2 hm2 hs2]
          exact ih seen kind search m htail hm hs hnd2 hkk
        · by_cases hkk2 : k2 = "context_low"
          · cases hg : m2.g1 with
            | none =>
              rw [stepCtxNoG1 text k2 s2 tbl seen m2 hm2 hs2 hkk2 hg]
              exact ih (k2 :: seen) kind search m htail hm hs3 hnd2 hkk
            | some ds =>
              cases hp : parsePyInt ds with
              | none =>
                rw [stepCtxNoParse text k2 s2 tbl seen m2 ds hm2 hs2 hkk2 hg hp]
                exact ih (k2 :: seen) kind search m htail hm hs3 hnd2 hkk
              | some pct =>
                by_cases hge : pct ≥ 15
                · rw [stepCtxHigh text k2 s2 tbl seen m2 ds pct hm2 hs2 hkk2 hg hp hge]
                  exact ih (k2 :: seen) kind search m htail hm hs3 hnd2 hkk
                · rw [stepCtxLow text k2 s2 tbl seen m2 ds pct hm2 hs2 hkk2 hg hp (by omega)]
                  obtain ⟨e, he, hek⟩ := ih (k2 :: seen) kind search m htail hm hs3 hnd2 hkk
                  exact ⟨e, List.mem_cons_of_mem _ he, hek⟩
          · rw [stepOther text k2 s2 tbl seen m2 hm2 hs2 hkk2]
            obtain ⟨e, he, hek⟩ := ih (k2 :: seen) kind search m htail hm hs3 hnd2 hkk
            exact ⟨e, List.mem_cons_of_mem _ he, hek⟩

theorem searchFirst_nil {α : Type} (f : List Char → Option α) :
    searchFirst f [] = f [] := rfl

theorem searchFirst_some {α : Type} (f : List Char → Option α) :
    ∀ (s : List Char) (a : α), searchFirst f s = some a →
      ∃ t, t <:+ s ∧ f t = some a := by
  intro s
  induction s with
  | nil => intro a h; exact ⟨[], List.suffix_rfl, h⟩
  | cons c t2 ih =>
    intro a h
    rw [searchFirst] at h
    cases hf : f (c :: t2) with
    | some b =>
      rw [hf] at h
      replace h : some b = some a := h
      injection h with hba
      subst hba
      exact ⟨c :: t2, List.suffix_rfl, hf⟩
    | none =>
      rw [hf] at h
      replace h : searchFirst f t2 = some a := h
      obtain ⟨t, ht, hft⟩ := ih a h
      exact ⟨t, ht.trans (List.suffix_cons c t2), hft⟩

theorem litCIRun_prev : ∀ (cs s : List Char) (p1 p2 : Option Char),
    litCIRun cs p1 s ≠ [] → litCIRun cs p2 s ≠ [] := by
  intro cs
  cases cs with
  | nil => intro s p1 p2 _; simp [litCIRun]
  | cons c cs2 =>
    intro s p1 p2 h
    cases s with
    | nil => simp [litCIRun] at h
    | cons d t =>
      simp only [litCIRun] at h ⊢
      exact h

theorem litCIRun_ne_nil_append : ∀ (cs s : List Char) (prev : Option Char) (u : List Char),
    litCIRun cs prev s ≠ [] → litCIRun cs prev (s ++ u) ≠ [] := by
  intro cs
  induction cs with
  | nil => intro s prev u _; simp [litCIRun]
  | cons c cs2 ih =>
    intro s prev u h
    cases s with
    | nil => simp [litCIRun] at h
    | cons d t =>
      simp only [litCIRun, List.cons_append] at h ⊢
      by_cases hd : (d.toLower == c.toLower) = true
      · rw [if_pos hd] at h ⊢
        exact ih t (some d) u h
      · rw [if_neg hd] at h
        exact absurd rfl h

theorem reFind_litCI_isSome (cs : List Char) :
    ∀ (s : List Char) (prev : Option Char),
      (∃ t, t <:+ s ∧ litCIRun cs none t ≠ []) →
      (reFind (.litCI cs) prev s).isSome = true := by
  intro s
  induction s with
  | nil =>
    intro prev h
    obtain ⟨t, ht, hne⟩ := h
    rw [List.suffix_nil] at ht
    subst ht
    rw [reFind]
    cases hh : (reRun (.litCI cs) prev []).head? with
    | some pr => simp
    | none =>
      exfalso
      rw [List.head?_eq_none_iff] at hh
      exact litCIRun_prev cs [] none prev hne hh
  | cons c t2 ih =>
    intro prev h
    obtain ⟨t, ht, hne⟩ := h
    rw [reFind]
    cases hh : (reRun (.litCI cs) prev (c :: t2)).head? with
    | some pr => simp
    | none =>
      rcases List.suffix_cons_iff.mp ht with heq | ht2
      · exfalso
        rw [List.head?_eq_none_iff] at hh
        subst heq
        exact litCIRun_prev cs (c :: t2) none prev hne hh
      · simp only
        exact ih (some c) ⟨t, ht2, hne⟩

theorem ctxEx_of_ctxLow {text : List Char} {m : EvMatch}
    (h : ctxLowSearch text = some m) :
    ∃ m2, ctxExhaustedSearch text = some m2 := by
  obtain ⟨t, ht, hat⟩ := searchFirst_some ctxLowMatchAt text m h
  have hpre : "Context left until auto-compact:".data <+: t := by
    rw [ctxLowMatchAt] at hat
    split at hat
    · next hcond => exact List.isPrefixOf_iff_prefix.mp hcond
    · exact absurd hat (by simp)
  obtain ⟨u, hu⟩ := hpre
  have ht2 : t = "Context left until ".data ++ ("auto-compact:".data ++ u) := by
    rw [← hu]
    rw [show "Context left until auto-compact:".data =
      "Context left until ".data ++ "auto-compact:".data from by decide]
    rw [List.append_assoc]
  have hsuf : ("auto-compact:".data ++ u) <:+ text :=
    List.IsSuffix.trans ⟨"Context left until ".data, ht2.symm⟩ ht
  have hrun : litCIRun "auto-compact".data none ("auto-compact:".data ++ u) ≠ [] :=
    litCIRun_ne_nil_append "auto-compact".data "auto-compact:".data none u (by decide)
  have hfind := reFind_litCI_isSome "auto-compact".data text none ⟨_, hsuf, hrun⟩
  rw [ctxExhaustedSearch, reSearchG0]
  cases hr : reFind (.litCI "auto-compact".data) none text with
  | none => rw [hr] at hfind; simp at hfind
  | some fr =>
    exact ⟨⟨List.take (fr.1.length - fr.2.length) fr.1, none⟩, by simp [hr]⟩

-- C7 main theorem

/-- C7: a `context_low` event appears exactly when the first match of the
remaining-context pattern captures a percentage strictly below 15; a
capture of 15 or more is discarded, and an unparsable capture suppresses
the event (any emitted event implies a successful parse below 15).
Concretely, `8%` yields a context_low event whose detail contains `8%`,
while `50%` yields none. -/
theorem context_low_threshold :
    (∀ (text : List Char) (e : LifecycleEvent), e ∈ detect_events text →
        e.kind = "context_low" →
        ∃ m ds pct, ctxLowSearch text = some m ∧ m.g1 = some ds ∧
          parsePyInt ds = some pct ∧ pct < 15 ∧
          e.detail = intRepr pct ++ "% remaining".data) ∧
    (∀ (text : List Char) (m : EvMatch) (ds : List Char) (pct : Int),
        ctxLowSearch text = some m → m.g1 = some ds → parsePyInt ds = some pct →
        15 ≤ pct → ∀ e ∈ detect_events text, e.kind ≠ "context_low") ∧
    (∃ e ∈ detect_events "Context left until auto-compact: 8%".data,
        e.kind = "context_low" ∧ "8%".data <:+: e.detail) ∧
    (∀ e ∈ detect_events "Context left until auto-compact: 50%".data,
        e.kind ≠ "context_low") := by
  have honly : ∀ (text : List Char) (e : LifecycleEvent), e ∈ detect_events text →
      e.kind = "context_low" →
      ∃ m ds pct, ctxLowSearch text = some m ∧ m.g1 = some ds ∧
        parsePyInt ds = some pct ∧ pct < 15 ∧
        e.detail = intRepr pct ++ "% remaining".data := by
    intro text e he hk
    obtain ⟨search, hmem, m, ds, pct, hm, hg, hp, hlt, hd⟩ :=
      detectEventsGo_ctxlow text EVENT_PATTERNS [] e he hk
    have hse : search = ctxLowSearch := by
      simp only [EVENT_PATTERNS, List.mem_cons, List.not_mem_nil, or_false] at hmem
      rcases hmem with h1 | h1 | h1 | h1
      · refine absurd (Prod.ext_iff.mp h1).1 ?_
        show ¬("context_low" : String) = "pr_created"
        decide
      · refine absurd (Prod.ext_iff.mp h1).1 ?_
        show ¬("context_low" : String) = "finished"
        decide
      · exact (Prod.ext_iff.mp h1).2
      · refine absurd (Prod.ext_iff.mp h1).1 ?_
        show ¬("context_low" : String) = "context_exhausted"
        decide
    rw [hse] at hm
    exact ⟨m, ds, pct, hm, hg, hp, hlt, hd⟩
  refine ⟨honly, ?_, by decide, by decide⟩
  intro text m ds pct hm hg hp hge e he hk
  obtain ⟨m2, ds2, pct2, hm2, hg2, hp2, hlt2, _⟩ := honly text e he hk
  rw [hm] at hm2
  injection hm2 with hmm
  subst hmm
  rw [hg] at hg2
  injection hg2 with hdd
  subst hdd
  rw [hp] at hp2
  injection hp2 with hpp
  subst hpp
  omega

/-- Witness for C7: at 50% the pattern matches and parses but the event is
suppressed. -/
theorem context_low_threshold_witness :
    ∀ e ∈ detect_events "Context left until auto-compact: 50%".data,
      e.kind ≠ "context_low" :=
  context_low_threshold.2.1 "Context left until auto-compact: 50%".data
    ⟨"Context left until auto-compact: 50%".data, some "50".data⟩
    "50".data 50 (by decide) (by decide) (by decide) (by decide)

/-- C10: whenever the `context_low` pattern matches — even with a reading
at or above the 15% threshold, which emits no context_low event — the
`context_exhausted` pattern (`auto-compact`, case-insensitive) matches a
substring of the same match, so a context_exhausted event is emitted. -/
theorem ctx_exhausted_whenever_ctx_low (text : List Char) (m : EvMatch)
    (h : ctxLowSearch text = some m) :
    ∃ e ∈ detect_events text, e.kind = "context_exhausted" := by
  obtain ⟨m2, hm2⟩ := ctxEx_of_ctxLow h
  exact detectEventsGo_emits text EVENT_PATTERNS [] "context_exhausted" ctxExhaustedSearch m2
    (List.Mem.tail _ (List.Mem.tail _ (List.Mem.tail _ (List.Mem.head _))))
    hm2 (by simp) (by decide) (by decide)

/-- Witness for C10: at 50% no context_low event is emitted, yet the
context_exhausted event is. -/
theorem ctx_exhausted_whenever_ctx_low_witness :
    (∃ e ∈ detect_events "Context left until auto-compact: 50%".data,
        e.kind = "context_exhausted") ∧
    (∀ e ∈ detect_events "Context left until auto-compact: 50%".data,
        e.kind ≠ "context_low") :=
  ⟨ctx_exhausted_whenever_ctx_low "Context left until auto-compact: 50%".data
    ⟨"Context left until auto-compact: 50%".data, some "50".data⟩ (by decide),
   by decide⟩

-- -----------------------------------------------------------
-- C9 (report formatting)
-- -----------------------------------------------------------

theorem digitChar_ne_nl : ∀ d : Nat, digitChar d ≠ '\n' := by
  intro d
  rcases d with _ | _ | _ | _ | _ | _ | _ | _ | _ | _ | d
  all_goals first
    | decide
    | exact (by decide : ('*' : Char) ≠ '\n')

theorem natReprAux_chars : ∀ (fuel n : Nat) (acc : List Char) (c : Char),
    c ∈ natReprAux fuel n acc → c ∈ acc ∨ ∃ d, c = digitChar d := by
  intro fuel
  induction fuel with
  | zero => intro n acc c h; exact Or.inl h
  | succ fuel ih =>
    intro n acc c h
    rw [natReprAux] at h
    split at h
    · rcases List.mem_cons.mp h with rfl | h2
      · exact Or.inr ⟨n, rfl⟩
      · exact Or.inl h2
    · rcases ih (n / 10) _ c h with h2 | h2
      · rcases List.mem_cons.mp h2 with rfl | h3
        · exact Or.inr ⟨n % 10, rfl⟩
        · exact Or.inl h3
      · exact Or.inr h2

theorem natRepr_ne_nl (n : Nat) (c : Char) (h : c ∈ natRepr n) : c ≠ '\n' := by
  rcases natReprAux_chars (n + 1) n [] c h with h2 | ⟨d, rfl⟩
  · simp at h2
  · exact digitChar_ne_nl d

theorem joinSep_mem (sep : List Char) :
    ∀ (xs : List (List Char)) (c : Char),
      c ∈ joinSep sep xs → c ∈ sep ∨ ∃ x ∈ xs, c ∈ x := by
  intro xs
  induction xs with
  | nil => intro c h; simp [joinSep] at h
  | cons x xs ih =>
    intro c h
    cases xs with
    | nil => exact Or.inr ⟨x, by simp, by simpa [joinSep] using h⟩
    | cons y ys =>
      have hj : joinSep sep (x :: y :: ys) = x ++ sep ++ joinSep sep (y :: ys) := rfl
      rw [hj] at h
      simp only [List.append_assoc, List.mem_append] at h
      rcases h with h | h | h
      · exact Or.inr ⟨x, by simp, h⟩
      · exact Or.inl h
      · rcases ih c h with h2 | ⟨x2, hx2, hc2⟩
        · exact Or.inl h2
        · exact Or.inr ⟨x2, List.mem_cons_of_mem _ hx2, hc2⟩

theorem infixAppendLeft {pat d : List Char} (x : List Char) (h : pat <:+: d) :
    pat <:+: x ++ d := by
  obtain ⟨a, b, hab⟩ := h
  exact ⟨x ++ a, b, by rw [← hab]; simp⟩

/-- C9: `format_report` on the empty list is the fixed no-sessions
sentence, and on a non-empty all-quiet list it is a single summary line
(no newline) containing the literal substrings `0 prompts` and
`0 events`. -/
theorem report_formatting :
    format_report [] = "No agent panes found.".data ∧
    (∀ reports : List PaneReport, reports ≠ [] →
      (∀ r ∈ reports, r.prompts = [] ∧ r.events = []) →
      "0 prompts".data <:+: format_report reports ∧
      "0 events".data <:+: format_report reports ∧
      ∀ c ∈ format_report reports, c ≠ '\n') := by
  refine ⟨rfl, ?_⟩
  intro reports hne hq
  have hemp : reports.isEmpty = false := by
    cases reports with
    | nil => exact absurd rfl hne
    | cons a l => rfl
  have hact : reports.filter (fun r => !r.prompts.isEmpty || !r.events.isEmpty) = [] := by
    rw [List.filter_eq_nil_iff]
    intro r hr
    obtain ⟨h1, h2⟩ := hq r hr
    simp [h1, h2]
  have hform : ∃ parts : List (List Char),
      format_report reports =
        natRepr reports.length ++ " agent(s): ".data ++
          joinSep ", ".data (if parts.isEmpty then ["all idle".data] else parts) ++
          ". 0 prompts, 0 events.".data ∧
      ∀ x ∈ parts, ∀ c2 ∈ x, c2 ≠ '\n' := by
    refine ⟨(if (List.filter (fun r => r.status == "working") reports).length ≠ 0 then
        [natRepr (List.filter (fun r => r.status == "working") reports).length
          ++ " working".data] else [])
      ++ (if (List.filter (fun r => r.status == "done") reports).length ≠ 0 then
        [natRepr (List.filter (fun r => r.status == "done") reports).length
          ++ " done".data] else []), ?_, ?_⟩
    · simp only [format_report, hemp, Bool.false_eq_true, if_false, hact,
        List.isEmpty_nil, if_true]
    · intro x hx c2 hc2
      rcases List.mem_append.mp hx with hx2 | hx2
      · split at hx2
        · rw [List.mem_singleton] at hx2
          subst hx2
          rcases List.mem_append.mp hc2 with hc3 | hc3
          · exact natRepr_ne_nl _ _ hc3
          · exact (show ∀ c3 ∈ " working".data, c3 ≠ '\n' by decide) c2 hc3
        · simp at hx2
      · split at hx2
        · rw [List.mem_singleton] at hx2
          subst hx2
          rcases List.mem_append.mp hc2 with hc3 | hc3
          · exact natRepr_ne_nl _ _ hc3
          · exact (show ∀ c3 ∈ " done".data, c3 ≠ '\n' by decide) c2 hc3
        · simp at hx2
  obtain ⟨parts, hform, hpartsNl⟩ := hform
  rw [hform]
  have htail : ∀ pat : List Char, pat <:+: ". 0 prompts, 0 events.".data →
      pat <:+: natRepr reports.length ++ " agent(s): ".data ++
        joinSep ", ".data (if parts.isEmpty then ["all idle".data] else parts) ++
        ". 0 prompts, 0 events.".data := by
    intro pat hp
    rw [List.append_assoc, List.append_assoc]
    exact infixAppendLeft _ (by rw [← List.append_assoc]; exact infixAppendLeft _ hp)
  refine ⟨htail _ (by decide), htail _ (by decide), ?_⟩
  intro c hc
  simp only [List.append_assoc, List.mem_append] at hc
  rcases hc with hc | hc | hc | hc
  · exact natRepr_ne_nl _ _ hc
  · exact (show ∀ c3 ∈ " agent(s): ".data, c3 ≠ '\n' by decide) c hc
  · rcases joinSep_mem ", ".data _ c hc with h2 | ⟨x, hx, hcx⟩
    · exact (show ∀ c3 ∈ ", ".data, c3 ≠ '\n' by decide) c h2
    · split at hx
      · rw [List.mem_singleton] at hx
        subst hx
        exact (show ∀ c3 ∈ "all idle".data, c3 ≠ '\n' by decide) c hcx
      · exact hpartsNl x hx c hcx
  · exact (show ∀ c3 ∈ ". 0 prompts, 0 events.".data, c3 ≠ '\n' by decide) c hc

/-- Witness for C9: a single quiet working pane yields the one-line
summary with zero tallies. -/
theorem report_formatting_witness :
    format_report [] = "No agent panes found.".data ∧
    ("0 prompts".data <:+: format_report [⟨"s1".data, "a".data, "working", [], []⟩] ∧
     "0 events".data <:+: format_report [⟨"s1".data, "a".data, "working", [], []⟩] ∧
     ∀ c ∈ format_report [⟨"s1".data, "a".data, "working", [], []⟩], c ≠ '\n') :=
  ⟨report_formatting.1,
   report_formatting.2 [⟨"s1".data, "a".data, "working", [], []⟩] (by decide) (by decide)⟩

end TmuxPilot
